import Mathlib

/-!
# Stopwatch web app: shallow embedding and verification

This file embeds the core logic of `src/App.tsx` (a React stopwatch with lap
recording and locally persisted session history) and proves properties of it.

Modelling conventions:
* JavaScript numbers that only ever hold integer millisecond values are
  modelled as `Int` (elapsed time, lap splits) or `Nat` (the formatter's
  argument, which the spec restricts to non-negative values).
* The `localStorage` slot at key `"stopwatch-sessions"` is modelled as an
  `Option Blob`: `none` is an absent key; `Blob.malformed` is a stored string
  that `JSON.parse` throws on; `Blob.wellFormed v` is a stored string that
  `JSON.parse` turns into the JSON value `v`.
* `Date.now()` and `new Date().toISOString()` are external inputs: the
  `reset` operation carries the clock reading and the ISO date string it
  would observe.
* React's "save sessions whenever they change" effect
  (`localStorage.setItem('stopwatch-sessions', JSON.stringify(sessions))`)
  runs after every operation that calls `setSessions` (each such call passes
  a freshly allocated array, so the effect always fires); it is modelled by
  `saveEffect` applied at the end of each such operation.
-/

/-- JSON values, as produced by `JSON.parse`.  Numbers are restricted to the
integers actually stored by this app. -/
inductive JValue where
  | null : JValue
  | bool : Bool → JValue
  | num : Int → JValue
  | str : String → JValue
  | arr : List JValue → JValue
  | obj : List (String × JValue) → JValue
deriving Repr

/-- The persisted blob: either a string `JSON.parse` throws on, or a string
that parses to a JSON value. -/
inductive Blob where
  | malformed : Blob
  | wellFormed : JValue → Blob
deriving Repr

/-- `interface LapTime { id: number; time: number; lapTime: number }`. -/
structure LapTime where
  id : Int
  time : Int
  lapTime : Int
deriving Repr, DecidableEq

/-- `interface Session { id: string; date: string; totalTime: number;
lapTimes: LapTime[] }`. -/
structure Session where
  id : String
  date : String
  totalTime : Int
  lapTimes : List LapTime
deriving Repr, DecidableEq

/-- `JSON.stringify` of one lap record. -/
def encodeLapTime (l : LapTime) : JValue :=
  JValue.obj [("id", JValue.num l.id), ("time", JValue.num l.time),
    ("lapTime", JValue.num l.lapTime)]

/-- `JSON.stringify` of one session. -/
def encodeSession (s : Session) : JValue :=
  JValue.obj [("id", JValue.str s.id), ("date", JValue.str s.date),
    ("totalTime", JValue.num s.totalTime),
    ("lapTimes", JValue.arr (s.lapTimes.map encodeLapTime))]

/-- `JSON.stringify` of the session list. -/
def encodeSessions (ss : List Session) : JValue :=
  JValue.arr (ss.map encodeSession)

/-- The React component state of `App`, plus the `localStorage` slot at key
`"stopwatch-sessions"`. -/
structure AppState where
  time : Int
  isRunning : Bool
  lapTimes : List LapTime
  lastLapTime : Int
  sessions : List Session
  slot : Option Blob
deriving Repr

/-- The initial component state: `useState(0)`, `useState(false)`,
`useState([])`, `useState(0)`, `useState([])`; `slot` is whatever the browser
holds, here taken absent for the fresh-start runs. -/
def initState : AppState :=
  { time := 0, isRunning := false, lapTimes := [], lastLapTime := 0,
    sessions := [], slot := none }

/-- The save effect: `localStorage.setItem('stopwatch-sessions',
JSON.stringify(sessions))`, which fires whenever `setSessions` was called. -/
def saveEffect (st : AppState) : AppState :=
  { st with slot := some (Blob.wellFormed (encodeSessions st.sessions)) }

/-- `handleStartStop`: `setIsRunning(!isRunning)`. -/
def handleStartStop (st : AppState) : AppState :=
  { st with isRunning := !st.isRunning }

/-- One firing of the interval callback `setTime(prevTime => prevTime + 10)`.
The interval is scheduled only while `isRunning` is true and cancelled
otherwise, so the increment happens exactly in the running state. -/
def tick (st : AppState) : AppState :=
  if st.isRunning then { st with time := st.time + 10 } else st

/-- `handleLap`: guarded on `isRunning`; computes `lapTime = time -
lastLapTime`, builds a lap with `id = lapTimes.length + 1`, prepends it, and
sets `lastLapTime = time`. -/
def handleLap (st : AppState) : AppState :=
  if st.isRunning then
    let lapTime := st.time - st.lastLapTime
    let newLap : LapTime :=
      { id := (st.lapTimes.length : Int) + 1, time := st.time, lapTime := lapTime }
    { st with lapTimes := newLap :: st.lapTimes, lastLapTime := st.time }
  else st

/-- `saveSession`: if `time > 0`, build a session from `Date.now()` (the
`now` argument), `new Date().toISOString()` (the `iso` argument), the
current `time` and a copy of `lapTimes`, and prepend it; afterwards the save
effect persists the new list.  If `time` is not positive nothing happens and
the effect does not fire. -/
def saveSession (now : Int) (iso : String) (st : AppState) : AppState :=
  if st.time > 0 then
    let newSession : Session :=
      { id := toString now, date := iso, totalTime := st.time,
        lapTimes := st.lapTimes }
    saveEffect { st with sessions := newSession :: st.sessions }
  else st

/-- `handleReset`: `saveSession()` first (it reads the pre-reset state), then
`setIsRunning(false)`, `setTime(0)`, `setLapTimes([])`, `setLastLapTime(0)`. -/
def handleReset (now : Int) (iso : String) (st : AppState) : AppState :=
  let st1 := saveSession now iso st
  { st1 with isRunning := false, time := 0, lapTimes := [], lastLapTime := 0 }

/-- `deleteSession`: `setSessions(prev => prev.filter(session => session.id
!== sessionId))`, after which the save effect persists. -/
def deleteSession (sessionId : String) (st : AppState) : AppState :=
  saveEffect { st with sessions := st.sessions.filter (fun s => s.id ≠ sessionId) }

/-- `clearAllHistory`: `setSessions([])` and
`localStorage.removeItem('stopwatch-sessions')`; because `setSessions` was
called (with a fresh array), the save effect then fires and writes
`JSON.stringify([])` back into the slot. -/
def clearAllHistory (st : AppState) : AppState :=
  saveEffect { st with sessions := [], slot := none }

/-- The load effect run at mount: `localStorage.getItem('stopwatch-sessions')`;
when the key is present, `JSON.parse` inside `try`/`catch` — on success the
raw parsed value is installed as the sessions state with no shape check, on
a parse error the state keeps its initial `[]`.  The result is the runtime
value of the sessions state, as a JSON value since no validation occurred. -/
def loadSessions (slot : Option Blob) : JValue :=
  match slot with
  | none => JValue.arr []
  | some Blob.malformed => JValue.arr []
  | some (Blob.wellFormed v) => v

/-- `getFastest`: `Math.min(...laps.map(lap => lap.lapTime))`, `null` when
the list is empty. -/
def getFastest (laps : List LapTime) : Option Int :=
  match laps.map (fun lap => lap.lapTime) with
  | [] => none
  | t :: ts => some (ts.foldl min t)

/-- `getSlowest`: `Math.max(...laps.map(lap => lap.lapTime))`, `null` when
the list is empty. -/
def getSlowest (laps : List LapTime) : Option Int :=
  match laps.map (fun lap => lap.lapTime) with
  | [] => none
  | t :: ts => some (ts.foldl max t)

/-- The lap-row render: the "Fastest" badge shows iff
`lap.lapTime === fastest`. -/
def showsFastestBadge (laps : List LapTime) (lap : LapTime) : Bool :=
  match getFastest laps with
  | none => false
  | some m => lap.lapTime = m

/-- The lap-row render: the "Slowest" badge shows iff
`lap.lapTime === slowest && lapTimes.length > 1`. -/
def showsSlowestBadge (laps : List LapTime) (lap : LapTime) : Bool :=
  (match getSlowest laps with
   | none => false
   | some m => decide (lap.lapTime = m)) && decide (laps.length > 1)

/-- JavaScript `s.padStart(2, '0')`. -/
def padStart2 (s : String) : String :=
  String.mk (List.replicate (2 - s.length) '0') ++ s

/-- `formatTime`: `totalSeconds = floor(ms / 1000)`, `minutes =
floor(totalSeconds / 60)`, `seconds = totalSeconds % 60`, `ms =
floor((milliseconds % 1000) / 10)`, each rendered with `padStart(2, '0')`
into `MM:SS.CC`. -/
def formatTime (milliseconds : Nat) : String :=
  let totalSeconds := milliseconds / 1000
  let minutes := totalSeconds / 60
  let seconds := totalSeconds % 60
  let ms := (milliseconds % 1000) / 10
  padStart2 (toString minutes) ++ ":" ++ padStart2 (toString seconds) ++ "."
    ++ padStart2 (toString ms)

/-- User-level operations of the timer engine; `reset` carries the clock
reading `Date.now()` and ISO date string the browser would supply. -/
inductive Op where
  | startStop : Op
  | tick : Op
  | lap : Op
  | reset : Int → String → Op
deriving Repr, DecidableEq

/-- One operation applied to the state. -/
def stepOp (op : Op) (st : AppState) : AppState :=
  match op with
  | Op.startStop => handleStartStop st
  | Op.tick => tick st
  | Op.lap => handleLap st
  | Op.reset now iso => handleReset now iso st

/-- Run a sequence of operations left to right. -/
def runOps (ops : List Op) (st : AppState) : AppState :=
  match ops with
  | [] => st
  | op :: rest => runOps rest (stepOp op st)

/-- Head cumulative time of a most-recent-first lap list; 0 when there is no
lap (the predecessor value of the first lap). -/
def headTime (laps : List LapTime) : Int :=
  match laps with
  | [] => 0
  | l :: _ => l.time

/-- The split relation the spec states: each lap's `splitMs` equals its
`cumulativeElapsedMs` minus the previous lap's `cumulativeElapsedMs`, with 0
for the first lap's predecessor.  The list is most-recent-first, so the
chronological predecessor of an entry is the next entry. -/
def lapsChain (laps : List LapTime) : Bool :=
  match laps with
  | [] => true
  | l :: rest => (l.time == l.lapTime + headTime rest) && lapsChain rest

/-- `[n, n-1, ..., 1]` as integers: the lap ids of a most-recent-first list
of `n` laps. -/
def descIds (n : Nat) : List Int :=
  match n with
  | 0 => []
  | k + 1 => ((k : Int) + 1) :: descIds k

/-- The timer-engine invariant maintained by every operation. -/
def engineInv (st : AppState) : Prop :=
  0 ≤ st.time ∧ 0 ≤ st.lastLapTime ∧ st.lastLapTime ≤ st.time ∧
  headTime st.lapTimes = st.lastLapTime ∧
  lapsChain st.lapTimes = true ∧
  (∀ l ∈ st.lapTimes, 0 ≤ l.lapTime) ∧
  st.lapTimes.map LapTime.id = descIds st.lapTimes.length

/-- The id strings the resets of an operation sequence would generate. -/
def opResetIds (ops : List Op) : List String :=
  match ops with
  | [] => []
  | Op.reset now _ :: rest => toString now :: opResetIds rest
  | Op.startStop :: rest => opResetIds rest
  | Op.tick :: rest => opResetIds rest
  | Op.lap :: rest => opResetIds rest

/-- Field lookup in a parsed JSON object. -/
def jLookup (fields : List (String × JValue)) (k : String) : Option JValue :=
  match fields with
  | [] => none
  | (k2, v) :: rest => if k2 = k then some v else jLookup rest k

/-- Modelled from the spec: the persisted lap shape
`{id: integer, time: integer, lapTime: integer}` (spec section 6); the code
has no such validator, it installs `JSON.parse` output unchecked. -/
def specDecodeLapTime (v : JValue) : Option LapTime :=
  match v with
  | JValue.obj fs =>
    match jLookup fs "id", jLookup fs "time", jLookup fs "lapTime" with
    | some (JValue.num i), some (JValue.num t), some (JValue.num lt) =>
      some { id := i, time := t, lapTime := lt }
    | _, _, _ => none
  | _ => none

/-- Modelled from the spec: the persisted session shape `id` (string),
`date` (string), `totalTime` (integer), `lapTimes` (sequence of lap records)
(spec section 6). -/
def specDecodeSession (v : JValue) : Option Session :=
  match v with
  | JValue.obj fs =>
    match jLookup fs "id", jLookup fs "date", jLookup fs "totalTime",
        jLookup fs "lapTimes" with
    | some (JValue.str i), some (JValue.str d), some (JValue.num t),
        some (JValue.arr ls) =>
      match ls.mapM specDecodeLapTime with
      | some laps => some { id := i, date := d, totalTime := t, lapTimes := laps }
      | none => none
    | _, _, _, _ => none
  | _ => none

/-- Modelled from the spec: "parses it as an ordered sequence of Session" —
the Session-list shape a persisted blob must have. -/
def specSessionListShape (v : JValue) : Option (List Session) :=
  match v with
  | JValue.arr items => items.mapM specDecodeSession
  | _ => none

/-- The spec's worked example: a run with chronological splits
`[500, 300, 300, 800]`, stored most-recent-first as the code does. -/
def exLaps : List LapTime :=
  [{ id := 4, time := 1900, lapTime := 800 },
   { id := 3, time := 1100, lapTime := 300 },
   { id := 2, time := 800, lapTime := 300 },
   { id := 1, time := 500, lapTime := 500 }]

@[simp]
theorem sessions_handleStartStop (st : AppState) :
    (handleStartStop st).sessions = st.sessions := rfl

@[simp]
theorem sessions_tick (st : AppState) : (tick st).sessions = st.sessions := by
  unfold tick; split <;> rfl

@[simp]
theorem sessions_handleLap (st : AppState) :
    (handleLap st).sessions = st.sessions := by
  unfold handleLap; split <;> rfl

theorem engineInv_init : engineInv initState := by
  simp [engineInv, initState, headTime, lapsChain, descIds]

theorem engineInv_handleStartStop (st : AppState) (h : engineInv st) :
    engineInv (handleStartStop st) := h

theorem engineInv_tick (st : AppState) (h : engineInv st) :
    engineInv (tick st) := by
  unfold tick
  split
  · obtain ⟨h1, h2, h3, h4, h5, h6, h7⟩ := h
    refine ⟨?_, h2, ?_, h4, h5, h6, h7⟩
    · show 0 ≤ st.time + 10
      omega
    · show st.lastLapTime ≤ st.time + 10
      omega
  · exact h

theorem engineInv_handleLap (st : AppState) (h : engineInv st) :
    engineInv (handleLap st) := by
  unfold handleLap
  split
  · obtain ⟨h1, h2, h3, h4, h5, h6, h7⟩ := h
    refine ⟨h1, ?_, le_refl _, rfl, ?_, ?_, ?_⟩
    · show 0 ≤ st.time
      omega
    · show lapsChain
        ({ id := (st.lapTimes.length : Int) + 1, time := st.time,
           lapTime := st.time - st.lastLapTime } :: st.lapTimes) = true
      simp only [lapsChain, h5, Bool.and_true, beq_iff_eq]
      omega
    · intro l hl
      rcases List.mem_cons.mp hl with rfl | hl
      · simpa using h3
      · exact h6 l hl
    · simp only [List.map_cons, List.length_cons, descIds, h7]
  · exact h

theorem engineInv_handleReset (st : AppState) (now : Int) (iso : String) :
    engineInv (handleReset now iso st) := by
  refine ⟨le_refl 0, le_refl 0, le_refl 0, rfl, rfl, ?_, rfl⟩
  intro l hl
  simp [handleReset] at hl

theorem engineInv_stepOp (op : Op) (st : AppState) (h : engineInv st) :
    engineInv (stepOp op st) := by
  cases op with
  | startStop => exact engineInv_handleStartStop st h
  | tick => exact engineInv_tick st h
  | lap => exact engineInv_handleLap st h
  | reset now iso => exact engineInv_handleReset st now iso

theorem engineInv_runOps (ops : List Op) (st : AppState) (h : engineInv st) :
    engineInv (runOps ops st) := by
  induction ops generalizing st with
  | nil => exact h
  | cons op rest ih => exact ih (stepOp op st) (engineInv_stepOp op st h)

theorem engineInv_reachable (ops : List Op) : engineInv (runOps ops initState) :=
  engineInv_runOps ops initState engineInv_init

@[simp]
theorem headTime_nil : headTime [] = 0 := rfl

@[simp]
theorem headTime_cons (l : LapTime) (rest : List LapTime) :
    headTime (l :: rest) = l.time := rfl

theorem lapsChain_sum (l : List LapTime) (h : lapsChain l = true) :
    (l.map LapTime.lapTime).sum = headTime l := by
  induction l with
  | nil => simp
  | cons a rest ih =>
    simp only [lapsChain, Bool.and_eq_true, beq_iff_eq] at h
    simp only [List.map_cons, List.sum_cons, headTime_cons, ih h.2]
    omega

theorem lapsChain_index (l : List LapTime) (h : lapsChain l = true) (i : Nat)
    (hi : i < l.length) :
    (l.get ⟨i, hi⟩).lapTime = (l.get ⟨i, hi⟩).time - headTime (l.drop (i + 1)) := by
  induction l generalizing i with
  | nil => simp at hi
  | cons a rest ih =>
    simp only [lapsChain, Bool.and_eq_true, beq_iff_eq] at h
    cases i with
    | zero =>
      simp only [List.get, List.drop_succ_cons, List.drop_zero]
      omega
    | succ k =>
      simp only [List.get, List.drop_succ_cons]
      exact ih h.2 k (by simpa using hi)

theorem lapsChain_times_nonincreasing (l : List LapTime)
    (hc : lapsChain l = true) (hn : ∀ x ∈ l, 0 ≤ x.lapTime) :
    List.Chain' (fun a b => b.time ≤ a.time) l := by
  induction l with
  | nil => simp
  | cons a rest ih =>
    simp only [lapsChain, Bool.and_eq_true, beq_iff_eq] at hc
    have hrest := ih hc.2 (fun x hx => hn x (List.mem_cons_of_mem a hx))
    cases rest with
    | nil => simp
    | cons b rest2 =>
      refine List.Chain'.cons ?_ hrest
      have hna : 0 ≤ a.lapTime := hn a (List.mem_cons_self a _)
      have hh : headTime (b :: rest2) = b.time := rfl
      rw [hh] at hc
      omega

theorem foldl_min_le_init (ts : List Int) (t : Int) : ts.foldl min t ≤ t := by
  induction ts generalizing t with
  | nil => simp
  | cons x xs ih =>
    simp only [List.foldl_cons]
    exact le_trans (ih (min t x)) (min_le_left t x)

theorem foldl_min_le_mem (ts : List Int) (t x : Int) (hx : x ∈ ts) :
    ts.foldl min t ≤ x := by
  induction ts generalizing t with
  | nil => simp at hx
  | cons y ys ih =>
    simp only [List.foldl_cons]
    rcases List.mem_cons.mp hx with rfl | hx2
    · exact le_trans (foldl_min_le_init ys (min t x)) (min_le_right t x)
    · exact ih (min t y) hx2

theorem foldl_min_attained (ts : List Int) (t : Int) :
    ts.foldl min t = t ∨ ts.foldl min t ∈ ts := by
  induction ts generalizing t with
  | nil => left; rfl
  | cons y ys ih =>
    simp only [List.foldl_cons]
    rcases ih (min t y) with h | h
    · rcases min_choice t y with hm | hm
      · left; rw [h, hm]
      · right; rw [h, hm]; exact List.mem_cons_self y ys
    · right; exact List.mem_cons_of_mem y h

theorem foldl_max_ge_init (ts : List Int) (t : Int) : t ≤ ts.foldl max t := by
  induction ts generalizing t with
  | nil => simp
  | cons x xs ih =>
    simp only [List.foldl_cons]
    exact le_trans (le_max_left t x) (ih (max t x))

theorem foldl_max_ge_mem (ts : List Int) (t x : Int) (hx : x ∈ ts) :
    x ≤ ts.foldl max t := by
  induction ts generalizing t with
  | nil => simp at hx
  | cons y ys ih =>
    simp only [List.foldl_cons]
    rcases List.mem_cons.mp hx with rfl | hx2
    · exact le_trans (le_max_right t x) (foldl_max_ge_init ys (max t x))
    · exact ih (max t y) hx2

theorem foldl_max_attained (ts : List Int) (t : Int) :
    ts.foldl max t = t ∨ ts.foldl max t ∈ ts := by
  induction ts generalizing t with
  | nil => left; rfl
  | cons y ys ih =>
    simp only [List.foldl_cons]
    rcases ih (max t y) with h | h
    · rcases max_choice t y with hm | hm
      · left; rw [h, hm]
      · right; rw [h, hm]; exact List.mem_cons_self y ys
    · right; exact List.mem_cons_of_mem y h

theorem getFastest_none_iff (laps : List LapTime) :
    getFastest laps = none ↔ laps = [] := by
  cases laps <;> simp [getFastest]

theorem getSlowest_none_iff (laps : List LapTime) :
    getSlowest laps = none ↔ laps = [] := by
  cases laps <;> simp [getSlowest]

theorem getFastest_min (laps : List LapTime) (m : Int)
    (h : getFastest laps = some m) :
    (∃ l ∈ laps, l.lapTime = m) ∧ ∀ l ∈ laps, m ≤ l.lapTime := by
  cases laps with
  | nil => simp [getFastest] at h
  | cons a rest =>
    simp only [getFastest, List.map_cons, Option.some.injEq] at h
    subst h
    constructor
    · rcases foldl_min_attained (rest.map (fun lap => lap.lapTime)) a.lapTime
        with h | h
      · exact ⟨a, List.mem_cons_self a rest, h.symm⟩
      · obtain ⟨l, hl, he⟩ := List.mem_map.mp h
        exact ⟨l, List.mem_cons_of_mem a hl, he⟩
    · intro l hl
      rcases List.mem_cons.mp hl with rfl | hl2
      · exact foldl_min_le_init _ _
      · exact foldl_min_le_mem _ _ _ (List.mem_map_of_mem _ hl2)

theorem getSlowest_max (laps : List LapTime) (m : Int)
    (h : getSlowest laps = some m) :
    (∃ l ∈ laps, l.lapTime = m) ∧ ∀ l ∈ laps, l.lapTime ≤ m := by
  cases laps with
  | nil => simp [getSlowest] at h
  | cons a rest =>
    simp only [getSlowest, List.map_cons, Option.some.injEq] at h
    subst h
    constructor
    · rcases foldl_max_attained (rest.map (fun lap => lap.lapTime)) a.lapTime
        with h | h
      · exact ⟨a, List.mem_cons_self a rest, h.symm⟩
      · obtain ⟨l, hl, he⟩ := List.mem_map.mp h
        exact ⟨l, List.mem_cons_of_mem a hl, he⟩
    · intro l hl
      rcases List.mem_cons.mp hl with rfl | hl2
      · exact foldl_max_ge_init _ _
      · exact foldl_max_ge_mem _ _ _ (List.mem_map_of_mem _ hl2)

theorem getFastest_isSome (laps : List LapTime) (h : laps ≠ []) :
    ∃ m, getFastest laps = some m := by
  cases laps with
  | nil => exact absurd rfl h
  | cons a rest => exact ⟨_, rfl⟩

theorem getSlowest_isSome (laps : List LapTime) (h : laps ≠ []) :
    ∃ m, getSlowest laps = some m := by
  cases laps with
  | nil => exact absurd rfl h
  | cons a rest => exact ⟨_, rfl⟩

theorem showsFastestBadge_iff (laps : List LapTime) (lap : LapTime)
    (hmem : lap ∈ laps) :
    showsFastestBadge laps lap = true ↔ ∀ l2 ∈ laps, lap.lapTime ≤ l2.lapTime := by
  obtain ⟨m, hm⟩ := getFastest_isSome laps (List.ne_nil_of_mem hmem)
  obtain ⟨⟨lw, hlw, hlwe⟩, hall⟩ := getFastest_min laps m hm
  simp only [showsFastestBadge, hm, decide_eq_true_eq]
  constructor
  · intro heq l2 hl2
    rw [heq]
    exact hall l2 hl2
  · intro hle
    have h1 : m ≤ lap.lapTime := hall lap hmem
    have h2 : lap.lapTime ≤ m := hlwe ▸ hle lw hlw
    omega

theorem showsSlowestBadge_iff (laps : List LapTime) (lap : LapTime)
    (hmem : lap ∈ laps) :
    showsSlowestBadge laps lap = true ↔
      ((∀ l2 ∈ laps, l2.lapTime ≤ lap.lapTime) ∧ 1 < laps.length) := by
  obtain ⟨m, hm⟩ := getSlowest_isSome laps (List.ne_nil_of_mem hmem)
  obtain ⟨⟨lw, hlw, hlwe⟩, hall⟩ := getSlowest_max laps m hm
  simp only [showsSlowestBadge, hm, Bool.and_eq_true, decide_eq_true_eq]
  constructor
  · intro ⟨heq, hlen⟩
    exact ⟨fun l2 hl2 => heq ▸ hall l2 hl2, hlen⟩
  · intro ⟨hge, hlen⟩
    have h1 : lap.lapTime ≤ m := hall lap hmem
    have h2 : m ≤ lap.lapTime := hlwe ▸ hge lw hlw
    exact ⟨by omega, hlen⟩

theorem sessions_handleReset (now : Int) (iso : String) (st : AppState) :
    (handleReset now iso st).sessions =
      if st.time > 0 then
        { id := toString now, date := iso, totalTime := st.time,
          lapTimes := st.lapTimes } :: st.sessions
      else st.sessions := by
  unfold handleReset saveSession
  split <;> rfl

theorem sessionIds_sublist (ops : List Op) (st : AppState) :
    ((runOps ops st).sessions.map Session.id).Sublist
      ((opResetIds ops).reverse ++ st.sessions.map Session.id) := by
  induction ops generalizing st with
  | nil => simp [runOps, opResetIds]
  | cons op rest ih =>
    cases op with
    | startStop =>
      have h := ih (handleStartStop st)
      simpa [runOps, stepOp, opResetIds] using h
    | tick =>
      have h := ih (tick st)
      simpa [runOps, stepOp, opResetIds] using h
    | lap =>
      have h := ih (handleLap st)
      simpa [runOps, stepOp, opResetIds] using h
    | reset now iso =>
      have h := ih (handleReset now iso st)
      rw [sessions_handleReset] at h
      show ((runOps rest (handleReset now iso st)).sessions.map Session.id).Sublist
        ((toString now :: opResetIds rest).reverse ++ st.sessions.map Session.id)
      rw [List.reverse_cons, List.append_assoc, List.singleton_append]
      by_cases hp : st.time > 0
      · rw [if_pos hp] at h
        simpa using h
      · rw [if_neg hp] at h
        refine List.Sublist.trans h ?_
        exact List.Sublist.append_left
          (List.Sublist.cons (toString now) (List.Sublist.refl _)) _

/-- C1: `reset()` creates a Session exactly when the pre-reset elapsed time
is strictly positive: with `elapsedMs > 0` exactly one Session is prepended,
carrying `totalElapsedMs` equal to the pre-reset elapsed time and the
pre-reset lap snapshot in its current order; with `elapsedMs == 0` the
session list is unchanged; in both cases the engine ends with `running =
false`, `elapsedMs = 0`, empty laps and `lastLapElapsedMs = 0`. -/
theorem C1_reset_finalizes_session (st : AppState) (now : Int) (iso : String) :
    ((handleReset now iso st).isRunning = false ∧
     (handleReset now iso st).time = 0 ∧
     (handleReset now iso st).lapTimes = [] ∧
     (handleReset now iso st).lastLapTime = 0) ∧
    (st.time > 0 → (handleReset now iso st).sessions =
      { id := toString now, date := iso, totalTime := st.time,
        lapTimes := st.lapTimes } :: st.sessions) ∧
    (st.time = 0 → (handleReset now iso st).sessions = st.sessions) := by
  refine ⟨⟨rfl, rfl, rfl, rfl⟩, ?_, ?_⟩
  · intro hp
    rw [sessions_handleReset, if_pos hp]
  · intro hz
    rw [sessions_handleReset, if_neg (by omega)]

/-- Witness for C1 at a state with elapsed time 30 and one lap, and at a
state with elapsed time 0. -/
theorem C1_reset_finalizes_session_witness :
    (handleReset 7 "2026-01-01"
      { time := 30, isRunning := true,
        lapTimes := [{ id := 1, time := 10, lapTime := 10 }],
        lastLapTime := 10, sessions := [], slot := none }).sessions =
      [{ id := "7", date := "2026-01-01", totalTime := 30,
         lapTimes := [{ id := 1, time := 10, lapTime := 10 }] }] ∧
    (handleReset 7 "2026-01-01"
      { time := 0, isRunning := false, lapTimes := [], lastLapTime := 0,
        sessions := [], slot := none }).sessions = [] :=
  ⟨(C1_reset_finalizes_session
      { time := 30, isRunning := true,
        lapTimes := [{ id := 1, time := 10, lapTime := 10 }],
        lastLapTime := 10, sessions := [], slot := none } 7
      "2026-01-01").2.1 (by decide),
   (C1_reset_finalizes_session
      { time := 0, isRunning := false, lapTimes := [], lastLapTime := 0,
        sessions := [], slot := none } 7 "2026-01-01").2.2 rfl⟩

/-- C2, at the failing input: an absent key or an unparsable blob does yield
the empty list, but a blob that is valid JSON without the Session-list shape
(here the array `[1]`) is installed verbatim as the sessions state — a
non-empty value that is not a Session list — because the code applies no
shape validation to the `JSON.parse` result. -/
theorem C2_load_no_shape_validation :
    loadSessions none = JValue.arr [] ∧
    loadSessions (some Blob.malformed) = JValue.arr [] ∧
    loadSessions (some (Blob.wellFormed (JValue.arr [JValue.num 1]))) =
      JValue.arr [JValue.num 1] ∧
    specSessionListShape (JValue.arr [JValue.num 1]) = none ∧
    JValue.arr [JValue.num 1] ≠ JValue.arr [] := by
  refine ⟨rfl, rfl, rfl, rfl, ?_⟩
  intro h
  injection h with h2
  exact absurd h2 (by simp)

/-- C3 counterexample: after `clearAllHistory` runs (including the
save-on-change effect that follows it), the persisted key is present, not
absent — it holds the serialized empty list. -/
theorem C3_clearAll_key_still_present :
    (clearAllHistory
      { time := 0, isRunning := false, lapTimes := [], lastLapTime := 0,
        sessions := [{ id := "1", date := "d", totalTime := 5, lapTimes := [] }],
        slot := some (Blob.wellFormed (encodeSessions
          [{ id := "1", date := "d", totalTime := 5, lapTimes := [] }])) }).slot
      ≠ none := by
  simp [clearAllHistory, saveEffect]

/-- C3 amended: `clearAllHistory` empties the in-memory list and removes the
key, but the save-on-change effect immediately re-persists, so afterwards
the key holds the serialized empty list; a subsequent `load()` (simulated
restart) still yields the empty session list. -/
theorem C3_clearAll_then_load_empty (st : AppState) :
    (clearAllHistory st).sessions = [] ∧
    (clearAllHistory st).slot = some (Blob.wellFormed (encodeSessions [])) ∧
    loadSessions (clearAllHistory st).slot = JValue.arr [] ∧
    specSessionListShape (loadSessions (clearAllHistory st).slot) = some [] :=
  ⟨rfl, rfl, rfl, rfl⟩

/-- C4: on every reachable engine state, the recorded splits sum to the
elapsed time at the moment of the most recent lap (the head cumulative
time, which equals `lastLapElapsedMs`), and each lap's split equals its
cumulative time minus its chronological predecessor's cumulative time (0
for the first lap). -/
theorem C4_splits_partition_elapsed (ops : List Op)
    (_hne : (runOps ops initState).lapTimes ≠ []) :
    ((runOps ops initState).lapTimes.map LapTime.lapTime).sum =
      headTime (runOps ops initState).lapTimes ∧
    headTime (runOps ops initState).lapTimes =
      (runOps ops initState).lastLapTime ∧
    ∀ (i : Nat) (hi : i < (runOps ops initState).lapTimes.length),
      ((runOps ops initState).lapTimes.get ⟨i, hi⟩).lapTime =
        ((runOps ops initState).lapTimes.get ⟨i, hi⟩).time -
          headTime ((runOps ops initState).lapTimes.drop (i + 1)) := by
  obtain ⟨h1, h2, h3, h4, h5, h6, h7⟩ := engineInv_reachable ops
  exact ⟨lapsChain_sum _ h5, h4, fun i hi => lapsChain_index _ h5 i hi⟩

/-- Witness for C4: start, tick, lap, tick, tick, lap gives splits
`[20, 10]` summing to the cumulative time 30 of the last lap. -/
theorem C4_splits_partition_elapsed_witness :
    ((runOps [Op.startStop, Op.tick, Op.lap, Op.tick, Op.tick, Op.lap]
        initState).lapTimes.map LapTime.lapTime).sum =
      headTime (runOps [Op.startStop, Op.tick, Op.lap, Op.tick, Op.tick,
        Op.lap] initState).lapTimes :=
  (C4_splits_partition_elapsed
    [Op.startStop, Op.tick, Op.lap, Op.tick, Op.tick, Op.lap]
    (by decide)).1

/-- C5: `recordLap` while paused is a silent no-op: the whole state is
unchanged. -/
theorem C5_lap_while_paused_noop (st : AppState) (h : st.isRunning = false) :
    handleLap st = st := by
  simp [handleLap, h]

/-- Witness for C5 at a concrete paused state. -/
theorem C5_lap_while_paused_noop_witness :
    handleLap
      { time := 25, isRunning := false,
        lapTimes := [{ id := 1, time := 10, lapTime := 10 }],
        lastLapTime := 10, sessions := [], slot := none } =
      { time := 25, isRunning := false,
        lapTimes := [{ id := 1, time := 10, lapTime := 10 }],
        lastLapTime := 10, sessions := [], slot := none } :=
  C5_lap_while_paused_noop
    { time := 25, isRunning := false,
      lapTimes := [{ id := 1, time := 10, lapTime := 10 }],
      lastLapTime := 10, sessions := [], slot := none } rfl

/-- C6: `getFastest`/`getSlowest` are the minimum/maximum split, `null`
exactly on the empty list; the badges are value-based (a lap is flagged
fastest iff its split is a minimum, flagged slowest iff its split is a
maximum and there is more than one lap); with exactly one lap the fastest
badge shows and the slowest badge is suppressed. -/
theorem C6_fastest_slowest_badges (laps : List LapTime) (lap : LapTime) :
    (getFastest laps = none ↔ laps = []) ∧
    (getSlowest laps = none ↔ laps = []) ∧
    (∀ m, getFastest laps = some m →
      (∃ l ∈ laps, l.lapTime = m) ∧ ∀ l ∈ laps, m ≤ l.lapTime) ∧
    (∀ m, getSlowest laps = some m →
      (∃ l ∈ laps, l.lapTime = m) ∧ ∀ l ∈ laps, l.lapTime ≤ m) ∧
    (lap ∈ laps →
      (showsFastestBadge laps lap = true ↔
        ∀ l2 ∈ laps, lap.lapTime ≤ l2.lapTime)) ∧
    (lap ∈ laps →
      (showsSlowestBadge laps lap = true ↔
        ((∀ l2 ∈ laps, l2.lapTime ≤ lap.lapTime) ∧ 1 < laps.length))) ∧
    (∀ l : LapTime,
      showsFastestBadge [l] l = true ∧ showsSlowestBadge [l] l = false) :=
  ⟨getFastest_none_iff laps, getSlowest_none_iff laps,
   fun m hm => getFastest_min laps m hm,
   fun m hm => getSlowest_max laps m hm,
   fun hmem => showsFastestBadge_iff laps lap hmem,
   fun hmem => showsSlowestBadge_iff laps lap hmem,
   fun l => ⟨by simp [showsFastestBadge, getFastest],
             by simp [showsSlowestBadge, getSlowest]⟩⟩

/-- Witness for C6 on the spec's example with splits `[500, 300, 300, 800]`:
the badge characterization applied to one of the tied 300 ms laps, plus the
evaluated extremes and badge flags of that list. -/
theorem C6_fastest_slowest_badges_witness :
    (showsFastestBadge exLaps { id := 2, time := 800, lapTime := 300 } = true ↔
      ∀ l2 ∈ exLaps,
        (({ id := 2, time := 800, lapTime := 300 } : LapTime)).lapTime ≤
          l2.lapTime) ∧
    getFastest exLaps = some 300 ∧
    getSlowest exLaps = some 800 ∧
    showsFastestBadge exLaps { id := 2, time := 800, lapTime := 300 } = true ∧
    showsFastestBadge exLaps { id := 3, time := 1100, lapTime := 300 } = true ∧
    showsSlowestBadge exLaps { id := 4, time := 1900, lapTime := 800 } = true ∧
    showsFastestBadge exLaps { id := 1, time := 500, lapTime := 500 } = false ∧
    showsSlowestBadge exLaps { id := 1, time := 500, lapTime := 500 } = false :=
  ⟨(C6_fastest_slowest_badges exLaps
      { id := 2, time := 800, lapTime := 300 }).2.2.2.2.1 (by decide),
   by decide, by decide, by decide, by decide, by decide, by decide, by decide⟩

/-- C7: `formatTime` renders `MM:SS.CC` with minutes `x / 1000 / 60` (not
reduced modulo 60 and not clamped: past 99 minutes the field widens),
seconds `x / 1000 % 60`, hundredths `x % 1000 / 10`, each zero-padded to at
least two digits; `formatTime 0 = "00:00.00"` and
`formatTime 61234 = "01:01.23"`. -/
theorem C7_formatTime_rendering (x : Nat) :
    formatTime x =
      padStart2 (toString (x / 1000 / 60)) ++ ":" ++
        padStart2 (toString (x / 1000 % 60)) ++ "." ++
        padStart2 (toString (x % 1000 / 10)) ∧
    formatTime 0 = "00:00.00" ∧
    formatTime 61234 = "01:01.23" ∧
    formatTime 5999990 = "99:59.99" ∧
    formatTime 6000000 = "100:00.00" :=
  ⟨rfl, by decide, by decide, by decide, by decide⟩

/-- C8 counterexample: two finalizing resets that observe the same
`Date.now()` reading (1000 ms) store two sessions with the same id
`"1000"`, so the stored ids are not pairwise distinct. -/
theorem C8_duplicate_ids_same_clock :
    ¬ ((runOps [Op.startStop, Op.tick, Op.reset 1000 "d1", Op.startStop,
        Op.tick, Op.reset 1000 "d2"] initState).sessions.map
          Session.id).Nodup := by
  decide

/-- C8 amended: the stored session ids are pairwise distinct provided the
id strings generated from the clock readings of the resets in the run are
pairwise distinct (as with a strictly increasing millisecond clock); two
finalizations observing the same reading collide. -/
theorem C8_ids_nodup_of_distinct_clock (ops : List Op)
    (h : (opResetIds ops).Nodup) :
    ((runOps ops initState).sessions.map Session.id).Nodup := by
  have hs := sessionIds_sublist ops initState
  simp only [initState, List.map_nil, List.append_nil] at hs
  exact List.Nodup.sublist hs (by simpa using h)

/-- Witness for C8: the same run with distinct clock readings 1000 and 2000
stores sessions with distinct ids. -/
theorem C8_ids_nodup_of_distinct_clock_witness :
    ((runOps [Op.startStop, Op.tick, Op.reset 1000 "d1", Op.startStop,
        Op.tick, Op.reset 2000 "d2"] initState).sessions.map
          Session.id).Nodup :=
  C8_ids_nodup_of_distinct_clock
    [Op.startStop, Op.tick, Op.reset 1000 "d1", Op.startStop, Op.tick,
     Op.reset 2000 "d2"] (by decide)

/-- C9: `deleteSession` keeps exactly the sessions whose id differs (so no
stored session with the given id remains), persists the resulting list, and
with no matching id leaves the session list unchanged. -/
theorem C9_deleteSession_filter (st : AppState) (sid : String) :
    (deleteSession sid st).sessions =
      st.sessions.filter (fun s => s.id ≠ sid) ∧
    (∀ s ∈ (deleteSession sid st).sessions, s.id ≠ sid) ∧
    (deleteSession sid st).slot =
      some (Blob.wellFormed (encodeSessions (deleteSession sid st).sessions)) ∧
    ((∀ s ∈ st.sessions, s.id ≠ sid) →
      (deleteSession sid st).sessions = st.sessions) := by
  refine ⟨rfl, ?_, rfl, ?_⟩
  · intro s hs
    have hmem := List.mem_filter.mp hs
    simpa using hmem.2
  · intro hall
    show st.sessions.filter (fun s => s.id ≠ sid) = st.sessions
    apply List.filter_eq_self.mpr
    intro a ha
    simpa using hall a ha

/-- Witness for C9: deleting an id not present in the store leaves the
session list as it was. -/
theorem C9_deleteSession_filter_witness :
    (deleteSession "z"
      { time := 0, isRunning := false, lapTimes := [], lastLapTime := 0,
        sessions := [{ id := "a", date := "d", totalTime := 5, lapTimes := [] }],
        slot := none }).sessions =
      [{ id := "a", date := "d", totalTime := 5, lapTimes := [] }] :=
  (C9_deleteSession_filter
    { time := 0, isRunning := false, lapTimes := [], lastLapTime := 0,
      sessions := [{ id := "a", date := "d", totalTime := 5, lapTimes := [] }],
      slot := none } "z").2.2.2 (by decide)

/-- C10: on every reachable state `0 ≤ lastLapElapsedMs ≤ elapsedMs`, so the
split the next lap would record is non-negative; every stored split is
non-negative; the stored (most-recent-first) lap ids descend from the lap
count down to 1 and the cumulative times are non-increasing; and each single
operation preserves `0 ≤ lastLapElapsedMs ≤ elapsedMs`. -/
theorem C10_engine_invariants (ops : List Op) :
    (0 ≤ (runOps ops initState).lastLapTime ∧
      (runOps ops initState).lastLapTime ≤ (runOps ops initState).time) ∧
    0 ≤ (runOps ops initState).time - (runOps ops initState).lastLapTime ∧
    (∀ l ∈ (runOps ops initState).lapTimes, 0 ≤ l.lapTime) ∧
    (runOps ops initState).lapTimes.map LapTime.id =
      descIds (runOps ops initState).lapTimes.length ∧
    List.Chain' (fun a b => b.time ≤ a.time) (runOps ops initState).lapTimes ∧
    ∀ (op : Op) (st : AppState),
      0 ≤ st.lastLapTime → st.lastLapTime ≤ st.time →
      0 ≤ (stepOp op st).lastLapTime ∧
        (stepOp op st).lastLapTime ≤ (stepOp op st).time := by
  obtain ⟨h1, h2, h3, h4, h5, h6, h7⟩ := engineInv_reachable ops
  refine ⟨⟨h2, h3⟩, by omega, h6, h7,
    lapsChain_times_nonincreasing _ h5 h6, ?_⟩
  intro op st ha hb
  cases op with
  | startStop => exact ⟨ha, hb⟩
  | tick =>
    show 0 ≤ (tick st).lastLapTime ∧ (tick st).lastLapTime ≤ (tick st).time
    unfold tick
    split
    · exact ⟨ha, by show st.lastLapTime ≤ st.time + 10; omega⟩
    · exact ⟨ha, hb⟩
  | lap =>
    show 0 ≤ (handleLap st).lastLapTime ∧
      (handleLap st).lastLapTime ≤ (handleLap st).time
    unfold handleLap
    split
    · constructor
      · show 0 ≤ st.time
        omega
      · show st.time ≤ st.time
        omega
    · exact ⟨ha, hb⟩
  | reset now iso => exact ⟨le_refl 0, le_refl 0⟩

/-- Witness for C10: the preservation part applied to a lap at a concrete
running state. -/
theorem C10_engine_invariants_witness :
    0 ≤ (stepOp Op.lap
      { time := 30, isRunning := true, lapTimes := [], lastLapTime := 10,
        sessions := [], slot := none }).lastLapTime ∧
    (stepOp Op.lap
      { time := 30, isRunning := true, lapTimes := [], lastLapTime := 10,
        sessions := [], slot := none }).lastLapTime ≤
      (stepOp Op.lap
        { time := 30, isRunning := true, lapTimes := [], lastLapTime := 10,
          sessions := [], slot := none }).time :=
  (C10_engine_invariants []).2.2.2.2.2 Op.lap
    { time := 30, isRunning := true, lapTimes := [], lastLapTime := 10,
      sessions := [], slot := none } (by decide) (by decide)
